import Mathlib

/-!
Verification of the PII detection / conflict resolution / anonymization
pipeline of the Privacy Firewall API (`src/main.py`).

The repository's own code (`main.py`) wires five regex pattern recognizers
into a presidio `AnalyzerEngine`, anonymizes the detected spans, and either
forwards the sanitized prompt to an LLM provider or falls back to a
simulation response.  The conflict-resolution (merge) step and the span
rewriting step live inside the presidio library, not in the repository, so
they are modelled here from the specification (each such definition is
marked `Modelled from the spec:`); the regex rule table, the simulation
branch, the error handler and the request schema are translated from
`src/main.py` itself.

Confidence scores are exact multiples of 0.01 in the source
(1.0, 0.8, 0.6, 0.85); they are represented here as integer hundredths
(`score100`), which preserves equality and order of all comparisons the
algorithms perform.
-/

/-- A candidate detection (spec §3 `Match`; the shape of presidio's
`RecognizerResult` produced in `main.py` line 90).  `stop` is the exclusive
end offset (the source's `end`, a Lean keyword).  `reg` is the recognizer's
registration order, used only as the final sort tie-break. -/
structure Match where
  entity_type : String
  start : Nat
  stop : Nat
  score100 : Nat
  reg : Nat
deriving DecidableEq, Repr

/-- Sort key from spec §4.4 step 1: start ascending, score descending,
span length `end - start` descending, registration order ascending.
Descending components are negated into `ℤ`. -/
def sortKey (m : Match) : Lex (ℕ × Lex (ℤ × Lex (ℤ × ℕ))) :=
  toLex (m.start, toLex (-(m.score100 : ℤ), toLex ((m.start : ℤ) - (m.stop : ℤ), m.reg)))

/-- The total preorder used to sort raw matches (spec §4.4 step 1). -/
def leM (a b : Match) : Prop := sortKey a ≤ sortKey b

instance : DecidableRel leM :=
  fun a b => inferInstanceAs (Decidable (sortKey a ≤ sortKey b))

instance : IsTotal Match leM := ⟨fun a b => le_total (sortKey a) (sortKey b)⟩

instance : IsTrans Match leM := ⟨fun _ _ _ h1 h2 => le_trans h1 h2⟩

/-- Modelled from the spec: §4.4 steps 2–3, the single greedy pass of the
Merge Engine (the conflict resolution inside presidio, which is not part of
this repository's sources).  The cursor starts at `-1`; a match is accepted
exactly when its start is at or past the cursor, which then jumps to the
match's end. -/
def scan (c : Int) : List Match → List Match
  | [] => []
  | m :: rest => if c ≤ (m.start : Int) then m :: scan (m.stop : Int) rest else scan c rest

/-- Modelled from the spec: §4.4 / §6 `merge(matches) → AcceptedSet`, the
Merge Engine entry point: sort all raw matches by `sortKey`, then scan once
greedily starting from cursor `-1`. -/
def merge (rm : List Match) : List Match :=
  scan (-1) (List.insertionSort leM rm)

/-- A character index lies inside a match's span. -/
def covers (m : Match) (i : Nat) : Prop := m.start ≤ i ∧ i < m.stop

/-- Accepted matches form a chain: each match ends at or before the next
one starts. -/
def chainRel (a b : Match) : Prop := a.stop ≤ b.start

instance : DecidableRel chainRel :=
  fun a b => inferInstanceAs (Decidable (a.stop ≤ b.start))

lemma scan_sublist (l : List Match) : ∀ c, (scan c l).Sublist l := by
  induction l with
  | nil => intro c; simp [scan]
  | cons m rest ih =>
      intro c
      by_cases h : c ≤ (m.start : Int)
      · simpa [scan, h] using (ih (m.stop : Int)).cons₂ m
      · simpa [scan, h] using (ih c).cons m

lemma scan_mem_start {l : List Match} (hv : ∀ m ∈ l, m.start < m.stop) :
    ∀ {c : Int} {x : Match}, x ∈ scan c l → c ≤ (x.start : Int) := by
  induction l with
  | nil => intro c x hx; simp [scan] at hx
  | cons m rest ih =>
      intro c x hx
      have hv' : ∀ y ∈ rest, y.start < y.stop := fun y hy => hv y (List.mem_cons_of_mem m hy)
      by_cases h : c ≤ (m.start : Int)
      · rw [scan, if_pos h] at hx
        rcases List.mem_cons.mp hx with rfl | hx
        · exact h
        · have hbig : (m.stop : Int) ≤ (x.start : Int) := ih hv' hx
          have hms : m.start < m.stop := hv m (List.mem_cons_self m rest)
          have : (m.start : Int) < (m.stop : Int) := by exact_mod_cast hms
          omega
      · rw [scan, if_neg h] at hx
        exact ih hv' hx

lemma scan_chain {l : List Match} (hv : ∀ m ∈ l, m.start < m.stop) :
    ∀ c, (scan c l).Pairwise chainRel := by
  induction l with
  | nil => intro c; simp [scan]
  | cons m rest ih =>
      intro c
      have hv' : ∀ x ∈ rest, x.start < x.stop := fun x hx => hv x (List.mem_cons_of_mem m hx)
      by_cases h : c ≤ (m.start : Int)
      · rw [scan, if_pos h]
        refine List.Pairwise.cons ?_ (ih hv' (m.stop : Int))
        intro x hx
        have := scan_mem_start hv' hx
        unfold chainRel
        exact_mod_cast this
      · rw [scan, if_neg h]
        exact ih hv' c

lemma scan_idem (l : List Match) : ∀ c, scan c (scan c l) = scan c l := by
  induction l with
  | nil => intro c; simp [scan]
  | cons m rest ih =>
      intro c
      by_cases h : c ≤ (m.start : Int)
      · rw [scan, if_pos h, scan, if_pos h, ih (m.stop : Int)]
      · rw [scan, if_neg h, ih c]

/-- The fixed placeholder token for an entity type (spec §4.5; presidio's
default replace operator produces the same shape, e.g. `<EMAIL_CUSTOM>`). -/
def placeholder (et : String) : List Char := '<' :: et.data ++ ['>']

/-- Modelled from the spec: §4.5, the Anonymizer's single left-to-right
pass (the rewrite inside presidio's `AnonymizerEngine`, not part of this
repository's sources): copy the untouched slice before each accepted span,
emit the placeholder, and continue after the span. -/
def anonGo (text : List Char) (pos : Nat) : List Match → List Char
  | [] => text.drop pos
  | m :: rest =>
      (text.drop pos).take (m.start - pos) ++ placeholder m.entity_type ++
        anonGo text m.stop rest

/-- Modelled from the spec: §4.5 / §6 `anonymize(text, accepted) → string`. -/
def anonymize (text : List Char) (accepted : List Match) : List Char :=
  anonGo text 0 accepted

/-- Character `i` of the text, as a (zero- or one-element) slice. -/
def sliceOne (text : List Char) (i : Nat) : List Char := (text.drop i).take 1

/-- What the spec's rewrite policy dictates at one character index: a match
starting here contributes its placeholder, an index strictly inside an
accepted span contributes nothing, and an index outside every accepted span
contributes the original character unchanged. -/
def renderAt (text : List Char) (ms : List Match) (i : Nat) : List Char :=
  match ms.find? (fun m => m.start == i) with
  | some m => placeholder m.entity_type
  | none =>
      if ms.any (fun m => decide (m.start ≤ i) && decide (i < m.stop)) then []
      else sliceOne text i

/-- The specification-level description of the sanitized text (spec §4.5 and
§8 offset integrity), stated per character index and independently of the
one-pass implementation `anonymize`. -/
def anonymizeSpec (text : List Char) (ms : List Match) : List Char :=
  ((List.range text.length).map (renderAt text ms)).flatten

lemma join_sliceOne (text : List Char) :
    ∀ (n pos : Nat), ((List.range' pos n).map (sliceOne text)).flatten = (text.drop pos).take n := by
  intro n
  induction n with
  | zero => intro pos; simp
  | succ k ih =>
      intro pos
      rw [List.range'_succ, List.map_cons, List.flatten_cons, ih (pos + 1)]
      by_cases h : pos < text.length
      · have hd : text.drop pos = text[pos] :: text.drop (pos + 1) :=
          List.drop_eq_getElem_cons h
        rw [sliceOne, hd, List.take_succ_cons, List.take_succ_cons, List.take_zero,
          List.cons_append, List.nil_append]
      · have h1 : text.length ≤ pos := Nat.le_of_not_lt h
        have h2 : text.length ≤ pos + 1 := by omega
        simp [sliceOne, List.drop_eq_nil_of_le h1, List.drop_eq_nil_of_le h2]

lemma range'_split (s a b : Nat) : List.range' s (a + b) = List.range' s a ++ List.range' (s + a) b := by
  have h := List.range'_append s a b 1
  rw [one_mul] at h
  rw [Nat.add_comm a b]
  exact h.symm

lemma renderAt_of_outside {text : List Char} {ms : List Match} {i : Nat}
    (h1 : ∀ m ∈ ms, m.start ≠ i) (h2 : ∀ m ∈ ms, ¬(m.start ≤ i ∧ i < m.stop)) :
    renderAt text ms i = sliceOne text i := by
  unfold renderAt
  have hf : ms.find? (fun m => m.start == i) = none :=
    List.find?_eq_none.mpr (by intro x hx; simpa using h1 x hx)
  rw [hf]
  have ha : ms.any (fun m => decide (m.start ≤ i) && decide (i < m.stop)) = false := by
    rw [List.any_eq_false]
    intro x hx
    have := h2 x hx
    simp only [Bool.and_eq_true, decide_eq_true_eq]
    exact this
  rw [ha]
  simp

lemma renderAt_of_inside {text : List Char} {ms : List Match} {i : Nat}
    (h1 : ∀ m ∈ ms, m.start ≠ i) (h2 : ∃ m ∈ ms, m.start ≤ i ∧ i < m.stop) :
    renderAt text ms i = [] := by
  unfold renderAt
  have hf : ms.find? (fun m => m.start == i) = none :=
    List.find?_eq_none.mpr (by intro x hx; simpa using h1 x hx)
  rw [hf]
  have ha : ms.any (fun m => decide (m.start ≤ i) && decide (i < m.stop)) = true := by
    rw [List.any_eq_true]
    obtain ⟨m, hm, hc⟩ := h2
    exact ⟨m, hm, by simp only [Bool.and_eq_true, decide_eq_true_eq]; exact hc⟩
  rw [ha]
  simp

lemma renderAt_tail {text : List Char} {m : Match} {rest : List Match} {i : Nat}
    (h1 : m.start ≠ i) (h2 : ¬(m.start ≤ i ∧ i < m.stop)) :
    renderAt text (m :: rest) i = renderAt text rest i := by
  unfold renderAt
  rw [List.find?_cons_of_neg _ (by simpa using h1)]
  have hb : (decide (m.start ≤ i) && decide (i < m.stop)) = false := by
    by_cases hle : m.start ≤ i
    · have : ¬ i < m.stop := fun hlt => h2 ⟨hle, hlt⟩
      simp [this]
    · simp [hle]
  rw [List.any_cons, hb, Bool.false_or]

lemma anonGo_spec (text : List Char) :
    ∀ (ms : List Match) (pos : Nat),
      ms.Pairwise chainRel →
      (∀ m ∈ ms, pos ≤ m.start ∧ m.start < m.stop ∧ m.stop ≤ text.length) →
      anonGo text pos ms =
        ((List.range' pos (text.length - pos)).map (renderAt text ms)).flatten := by
  intro ms
  induction ms with
  | nil =>
      intro pos _ _
      have hmap : (List.range' pos (text.length - pos)).map (renderAt text []) =
          (List.range' pos (text.length - pos)).map (sliceOne text) := by
        apply List.map_congr_left
        intro i _
        exact renderAt_of_outside (by simp) (by simp)
      show text.drop pos =
        ((List.range' pos (text.length - pos)).map (renderAt text [])).flatten
      rw [hmap, join_sliceOne]
      exact (List.take_of_length_le (by rw [List.length_drop])).symm
  | cons m rest ih =>
      intro pos hp hb
      obtain ⟨hmrel, hprest⟩ := List.pairwise_cons.mp hp
      obtain ⟨hpos, hms, hml⟩ := hb m (List.mem_cons_self m rest)
      have hbrest : ∀ x ∈ rest, m.stop ≤ x.start ∧ x.start < x.stop ∧ x.stop ≤ text.length := by
        intro x hx
        obtain ⟨_, h2, h3⟩ := hb x (List.mem_cons_of_mem m hx)
        exact ⟨hmrel x hx, h2, h3⟩
      have e1 : text.length - pos =
          (m.start - pos) + ((m.stop - m.start) + (text.length - m.stop)) := by omega
      have e2 : pos + (m.start - pos) = m.start := by omega
      have e3 : m.start + (m.stop - m.start) = m.stop := by omega
      show (text.drop pos).take (m.start - pos) ++ placeholder m.entity_type ++
          anonGo text m.stop rest =
        ((List.range' pos (text.length - pos)).map (renderAt text (m :: rest))).flatten
      rw [e1, range'_split, e2, range'_split, e3, List.map_append, List.map_append,
        List.flatten_append, List.flatten_append]
      have piece1 : ((List.range' pos (m.start - pos)).map (renderAt text (m :: rest))).flatten =
          (text.drop pos).take (m.start - pos) := by
        have hmap : (List.range' pos (m.start - pos)).map (renderAt text (m :: rest)) =
            (List.range' pos (m.start - pos)).map (sliceOne text) := by
          apply List.map_congr_left
          intro i hi
          have hir := List.mem_range'_1.mp hi
          have hilt : i < m.start := by omega
          apply renderAt_of_outside
          · intro x hx
            rcases List.mem_cons.mp hx with rfl | hx'
            · omega
            · have := (hbrest x hx').1
              omega
          · intro x hx
            rcases List.mem_cons.mp hx with rfl | hx'
            · intro hc; omega
            · have := (hbrest x hx').1
              intro hc; omega
        rw [hmap, join_sliceOne]
      have piece2 : ((List.range' m.start (m.stop - m.start)).map (renderAt text (m :: rest))).flatten =
          placeholder m.entity_type := by
        obtain ⟨k, hk⟩ : ∃ k, m.stop - m.start = k + 1 := ⟨m.stop - m.start - 1, by omega⟩
        rw [hk, List.range'_succ, List.map_cons, List.flatten_cons]
        have hhead : renderAt text (m :: rest) m.start = placeholder m.entity_type := by
          unfold renderAt
          rw [List.find?_cons_of_pos _ (by simp)]
        have htail : ((List.range' (m.start + 1) k).map (renderAt text (m :: rest))).flatten = [] := by
          rw [List.flatten_eq_nil_iff]
          intro l hl
          obtain ⟨i, hi, rfl⟩ := List.mem_map.mp hl
          have hir := List.mem_range'_1.mp hi
          apply renderAt_of_inside
          · intro x hx
            rcases List.mem_cons.mp hx with rfl | hx'
            · omega
            · have := (hbrest x hx').1
              omega
          · exact ⟨m, List.mem_cons_self m rest, by omega⟩
        rw [hhead, htail, List.append_nil]
      have piece3 : ((List.range' m.stop (text.length - m.stop)).map (renderAt text (m :: rest))).flatten =
          anonGo text m.stop rest := by
        have hmap : (List.range' m.stop (text.length - m.stop)).map (renderAt text (m :: rest)) =
            (List.range' m.stop (text.length - m.stop)).map (renderAt text rest) := by
          apply List.map_congr_left
          intro i hi
          have hir := List.mem_range'_1.mp hi
          apply renderAt_tail
          · omega
          · intro hc; omega
        rw [hmap, ← ih m.stop hprest hbrest]
      rw [piece1, piece2, piece3, List.append_assoc]

lemma sorted_perm_eq : ∀ {l₁ l₂ : List Match}, l₁.Perm l₂ →
    l₁.Pairwise leM → l₂.Pairwise leM →
    (∀ a ∈ l₁, ∀ b ∈ l₁, leM a b → leM b a → a = b) → l₁ = l₂ := by
  intro l₁
  induction l₁ with
  | nil =>
      intro l₂ hp _ _ _
      exact (hp.symm.eq_nil).symm
  | cons a t₁ ih =>
      intro l₂ hp hs₁ hs₂ hanti
      cases l₂ with
      | nil => exact absurd hp.eq_nil (by simp)
      | cons b t₂ =>
          have hab : a = b := by
            have ha2 : a ∈ b :: t₂ := hp.mem_iff.mp (List.mem_cons_self a t₁)
            rcases List.mem_cons.mp ha2 with h | hat₂
            · exact h
            · have hba : leM b a := (List.pairwise_cons.mp hs₂).1 a hat₂
              have hb1 : b ∈ a :: t₁ := hp.mem_iff.mpr (List.mem_cons_self b t₂)
              rcases List.mem_cons.mp hb1 with h | hbt₁
              · exact h.symm
              · have hab' : leM a b := (List.pairwise_cons.mp hs₁).1 b hbt₁
                exact hanti a (List.mem_cons_self a t₁) b (List.mem_cons_of_mem a hbt₁) hab' hba
          subst hab
          have htp : t₁.Perm t₂ := hp.cons_inv
          have heq : t₁ = t₂ := by
            apply ih htp (List.pairwise_cons.mp hs₁).2 (List.pairwise_cons.mp hs₂).2
            intro x hx y hy hxy hyx
            exact hanti x (List.mem_cons_of_mem a hx) y (List.mem_cons_of_mem a hy) hxy hyx
          rw [heq]

lemma sort_pairwise (rm : List Match) : (List.insertionSort leM rm).Pairwise leM :=
  List.sorted_insertionSort leM rm

lemma merge_mem {rm : List Match} {x : Match} (hx : x ∈ merge rm) : x ∈ rm := by
  have h1 : x ∈ List.insertionSort leM rm := (scan_sublist _ (-1)).mem hx
  exact (List.mem_insertionSort leM).mp h1

lemma merge_pairwise_leM (rm : List Match) : (merge rm).Pairwise leM :=
  List.Pairwise.sublist (scan_sublist _ (-1)) (sort_pairwise rm)

lemma merge_idem_aux (rm : List Match) : merge (merge rm) = merge rm := by
  have h2 : List.insertionSort leM (merge rm) = merge rm :=
    List.Sorted.insertionSort_eq (merge_pairwise_leM rm)
  show scan (-1) (List.insertionSort leM (merge rm)) = merge rm
  rw [h2]
  exact scan_idem _ _

/-- Regex abstract syntax covering exactly the constructs used by the five
patterns in `main.py`: character classes, concatenation, alternation,
bounded repetition `{lo,hi}` with a laziness flag, and the word boundary
assertion.  Unbounded `+` and `*?` are represented as repetitions bounded
by `maxRep`; since every repeated body in these patterns consumes at least
one character, this coincides with unbounded repetition on any text shorter
than `maxRep` characters (all texts evaluated here are far shorter). -/
inductive RE where
  | eps : RE
  | cls : (Char → Bool) → RE
  | seq : RE → RE → RE
  | alt : RE → RE → RE
  | rep : RE → Nat → Nat → Bool → RE
  | bound : RE

/-- Iteration cap standing in for unbounded repetition. -/
def maxRep : Nat := 100

/-- Python's `\w` on the texts analyzed here (ASCII letters, digits, underscore). -/
def wordChar (c : Char) : Bool := c.isAlphanum || c == '_'

def isWordAt (text : List Char) (j : Nat) : Bool :=
  match text[j]? with
  | some c => wordChar c
  | none => false

/-- Python's `\b`: the two sides of position `i` disagree on word-char-ness. -/
def isWB (text : List Char) (i : Nat) : Bool :=
  if i == 0 then isWordAt text 0
  else isWordAt text (i - 1) != isWordAt text i

/-- Backtracking repetition: all candidate end positions of `{lo,hi}`
iterations of the body (`step`), in the engine's preference order — a
greedy repetition prefers more iterations, a lazy one prefers fewer. -/
def iterRE (step : Nat → List Nat) (lz : Bool) : Nat → Nat → Nat → List Nat
  | lo, 0, i => if lo == 0 then [i] else []
  | lo, hi + 1, i =>
      let more := (step i).flatMap (fun j => iterRE step lz (lo - 1) hi j)
      if lo == 0 then (if lz then i :: more else more ++ [i]) else more

/-- Backtracking matcher: the candidate end positions of a match of `r`
starting at position `i`, in the preference order of Python's `re` engine
(leftmost alternative first, greedy prefers longer).  The head of the list
is the end position `re` reports. -/
def runRE (text : List Char) : RE → Nat → List Nat
  | .eps, i => [i]
  | .cls p, i =>
      match text[i]? with
      | some c => if p c then [i + 1] else []
      | none => []
  | .bound, i => if isWB text i then [i] else []
  | .alt a b, i => runRE text a i ++ runRE text b i
  | .seq a b, i => (runRE text a i).flatMap (fun j => runRE text b j)
  | .rep a lo hi lz, i => iterRE (fun j => runRE text a j) lz lo hi i

/-- One step of `re.finditer`: try each start position left to right, take
the engine-preferred match there, continue after its end (non-overlapping
matches, as Python's `finditer` yields them). -/
def findFrom (text : List Char) (r : RE) : Nat → Nat → List (Nat × Nat)
  | 0, _ => []
  | fuel + 1, pos =>
      if pos > text.length then []
      else
        match (runRE text r pos).head? with
        | some e => (pos, e) :: findFrom text r fuel (if pos < e then e else pos + 1)
        | none => findFrom text r fuel (pos + 1)

/-- All matches of `r` on `text`, as `re.finditer` yields them. -/
def finditer (text : List Char) (r : RE) : List (Nat × Nat) :=
  findFrom text r (text.length + 1) 0

def chRE (c : Char) : RE := .cls (fun x => x == c)

def strRE (s : String) : RE := s.data.foldr (fun c r => .seq (chRE c) r) .eps

def optRE (r : RE) : RE := .rep r 0 1 false

def plusRE (r : RE) : RE := .rep r 1 maxRep false

def lazyStar (r : RE) : RE := .rep r 0 maxRep true

def digitChar (c : Char) : Bool := c.isDigit

/-- Class `[\w\.-]` of the email pattern. -/
def emailChar (c : Char) : Bool := wordChar c || c == '.' || c == '-'

/-- Class `[- ]` (also `[ -]`) of the phone and bank patterns. -/
def sepChar (c : Char) : Bool := c == '-' || c == ' '

/-- Class `[A-Z0-9]` of the bank pattern. -/
def upperDigitChar (c : Char) : Bool := c.isUpper || c.isDigit

/-- Class `[\d.,]` of the money pattern. -/
def numChar (c : Char) : Bool := c.isDigit || c == '.' || c == ','

/-- Class `\s`. -/
def wsChar (c : Char) : Bool := c.isWhitespace

/-- Translated from `main.py` line 28: `\b[\w\.-]+@[\w\.-]+\.\w{2,4}\b`. -/
def email_pattern : RE :=
  .seq .bound (.seq (plusRE (.cls emailChar)) (.seq (chRE '@')
    (.seq (plusRE (.cls emailChar)) (.seq (chRE '.')
      (.seq (.rep (.cls wordChar) 2 4 false) .bound)))))

/-- Translated from `main.py` line 33:
`\b(?:\+?\d{1,3}[- ]?)?\(?\d{2,4}\)?[- ]?\d{3,4}[- ]?\d{3,4}\b`. -/
def phone_pattern : RE :=
  .seq .bound (.seq (optRE (.seq (optRE (chRE '+'))
      (.seq (.rep (.cls digitChar) 1 3 false) (optRE (.cls sepChar)))))
    (.seq (optRE (chRE '(')) (.seq (.rep (.cls digitChar) 2 4 false)
      (.seq (optRE (chRE ')')) (.seq (optRE (.cls sepChar))
        (.seq (.rep (.cls digitChar) 3 4 false) (.seq (optRE (.cls sepChar))
          (.seq (.rep (.cls digitChar) 3 4 false) .bound))))))))

/-- Translated from `main.py` line 38: `\b[A-Z0-9]{15,30}\b|(?:\d[ -]*?){10,22}`. -/
def bank_pattern : RE :=
  .alt (.seq .bound (.seq (.rep (.cls upperDigitChar) 15 30 false) .bound))
    (.rep (.seq (.cls digitChar) (lazyStar (.cls sepChar))) 10 22 false)

/-- Translated from `main.py` line 44: `\b\d{1,2}\.?\d{3}\.?\d{3}\b`. -/
def dni_pattern : RE :=
  .seq .bound (.seq (.rep (.cls digitChar) 1 2 false) (.seq (optRE (chRE '.'))
    (.seq (.rep (.cls digitChar) 3 3 false) (.seq (optRE (chRE '.'))
      (.seq (.rep (.cls digitChar) 3 3 false) .bound)))))

/-- Translated from `main.py` line 50:
`(?:\$|USD|EUR)\s?[\d.,]+|[\d.,]+\s?(?:pesos|dólares|usd|eur|us\$)`. -/
def money_pattern : RE :=
  .alt (.seq (.alt (chRE '$') (.alt (strRE "USD") (strRE "EUR")))
      (.seq (optRE (.cls wsChar)) (plusRE (.cls numChar))))
    (.seq (plusRE (.cls numChar)) (.seq (optRE (.cls wsChar))
      (.alt (strRE "pesos") (.alt (strRE "dólares")
        (.alt (strRE "usd") (.alt (strRE "eur") (strRE "us$")))))))

/-- A pattern recognizer as registered in `main.py` (entity label, compiled
pattern, score in hundredths, registration order — the five
`analyzer.registry.add_recognizer` calls, lines 30/35/40/46/52). -/
structure Recognizer where
  entity : String
  pattern : RE
  score100 : Nat
  reg : Nat

def email_recognizer : Recognizer := ⟨"EMAIL_CUSTOM", email_pattern, 100, 1⟩

def phone_recognizer : Recognizer := ⟨"PHONE_CUSTOM", phone_pattern, 80, 2⟩

def bank_recognizer : Recognizer := ⟨"BANK_ACCOUNT", bank_pattern, 60, 3⟩

def dni_recognizer : Recognizer := ⟨"DNI_ARG", dni_pattern, 85, 4⟩

def money_recognizer : Recognizer := ⟨"MONEY_AMOUNT", money_pattern, 80, 5⟩

/-- The fixed recognizer registry, in registration order (`main.py` §2). -/
def registry : List Recognizer :=
  [email_recognizer, phone_recognizer, bank_recognizer, dni_recognizer, money_recognizer]

/-- The raw matches one pattern recognizer reports (presidio's
`PatternRecognizer.analyze`: one `RecognizerResult` per `finditer` match,
carrying the pattern's score). -/
def recognizerMatches (text : List Char) (rc : Recognizer) : List Match :=
  (finditer text rc.pattern).map (fun se => ⟨rc.entity, se.1, se.2, rc.score100, rc.reg⟩)

/-- Modelled from the spec: §4.1 registry fan-out (`analyzer.analyze`,
`main.py` line 90, whose dispatch loop lives inside presidio): every
registered recognizer runs on the text and the raw match lists are
concatenated.  The statistical (spacy) recognizer is a black box at design
level (spec §4.3) and is modelled as contributing no matches on the inputs
analyzed here. -/
def analyzeText (text : List Char) : List Match :=
  registry.flatMap (recognizerMatches text)

/-- The simulation marker of `main.py` line 100. -/
def simMarker : List Char := "[SIMULACIÓN] Prompt seguro: ".data

/-- Response schema of `main.py` lines 74–80. -/
structure SafetyReport where
  detected_items : List String
  sanitized_prompt : List Char
deriving DecidableEq, Repr

structure SecureChatResponse where
  ai_response : List Char
  safety_report : SafetyReport
deriving DecidableEq, Repr

/-- Translated from `main.py` lines 87–117 (`secure_chat`), with the
conflict resolution and span rewriting that `main.py` delegates to presidio
replaced by the spec's Merge Engine and Anonymizer (spec §2 data flow:
analyze → merge → anonymize / report).  `api_key` models the environment
variable of line 56; `llm` models the OpenAI chat completion call of lines
102–109 as a function of the sanitized prompt.  The `user_id` field of the
request (line 72) is accepted and, as in the source, never used. -/
def secure_chat (api_key : Option String) (llm : List Char → List Char)
    (prompt : List Char) (user_id : String) : SecureChatResponse :=
  let accepted := merge (analyzeText prompt)
  let prompt_seguro := anonymize prompt accepted
  let detected_types := (accepted.map Match.entity_type).dedup
  let ai_response :=
    match api_key with
    | none => simMarker ++ prompt_seguro
    | some _ => llm prompt_seguro
  ⟨ai_response, ⟨detected_types, prompt_seguro⟩⟩

/-- Translated from `main.py` line 121: the exception handler raises
`HTTPException(status_code=500, detail=str(e))` — a 500 status whose body
carries the exception message verbatim. -/
def handleError (msg : String) : Nat × String := (500, msg)

/-- Translated from `main.py` line 120: `logger.error(f"Error: {str(e)}")`. -/
def logLine (msg : String) : String := "Error: " ++ msg

/-- The Scenario A input (spec §8). -/
def promptA : List Char := "Contactame a ana@mail.com o al 11-4555-2233".data

lemma leM_iff (a b : Match) : leM a b ↔
    (a.start < b.start ∨ (a.start = b.start ∧
      (b.score100 < a.score100 ∨ (a.score100 = b.score100 ∧
        ((b.stop : ℤ) - (b.start : ℤ) < (a.stop : ℤ) - (a.start : ℤ) ∨
          ((a.stop : ℤ) - (a.start : ℤ) = (b.stop : ℤ) - (b.start : ℤ) ∧ a.reg ≤ b.reg)))))) := by
  unfold leM sortKey
  simp only [Prod.Lex.le_iff]
  omega

lemma merge_pair_same_start (m1 m2 : Match) (hstart : m1.start = m2.start)
    (hscore : m2.score100 < m1.score100) (hspan : m1.start < m1.stop) :
    merge [m1, m2] = [m1] ∧ merge [m2, m1] = [m1] := by
  have h12 : leM m1 m2 := by rw [leM_iff]; omega
  have h21 : ¬ leM m2 m1 := by rw [leM_iff]; omega
  have hs1 : List.insertionSort leM [m1, m2] = [m1, m2] := by
    simp [List.insertionSort, List.orderedInsert, h12]
  have hs2 : List.insertionSort leM [m2, m1] = [m1, m2] := by
    simp [List.insertionSort, List.orderedInsert, h21]
  have hc1 : (-1 : Int) ≤ (m1.start : Int) := by omega
  have hc2 : ¬ ((m1.stop : Int) ≤ (m2.start : Int)) := by omega
  have hscan : scan (-1) [m1, m2] = [m1] := by
    rw [scan, if_pos hc1, scan, if_neg hc2, scan]
  exact ⟨by unfold merge; rw [hs1, hscan], by unfold merge; rw [hs2, hscan]⟩

/-- C1: for every list of raw matches (with valid spans `start < end`), the
merge step produces an accepted set that is pairwise non-overlapping — no
two accepted matches share any character index — and sorted by start
offset. -/
theorem merge_nonoverlap_sorted (rm : List Match) (hv : ∀ m ∈ rm, m.start < m.stop) :
    (merge rm).Pairwise (fun a b => (∀ i, ¬(covers a i ∧ covers b i)) ∧ a.start < b.start) := by
  have hv' : ∀ m ∈ List.insertionSort leM rm, m.start < m.stop :=
    fun m hm => hv m ((List.mem_insertionSort leM).mp hm)
  have hc : (merge rm).Pairwise chainRel := scan_chain hv' (-1)
  refine List.Pairwise.imp_of_mem ?_ hc
  intro a b ha hb hab
  have hav : a.start < a.stop := hv a (merge_mem ha)
  have hchain : a.stop ≤ b.start := hab
  constructor
  · intro i hcon
    obtain ⟨hca, hcb⟩ := hcon
    unfold covers at hca hcb
    omega
  · omega

theorem merge_nonoverlap_sorted_witness :
    (∀ m ∈ [(⟨"A", 0, 2, 80, 1⟩ : Match), ⟨"B", 1, 4, 90, 2⟩], m.start < m.stop) ∧
    (merge [(⟨"A", 0, 2, 80, 1⟩ : Match), ⟨"B", 1, 4, 90, 2⟩]).Pairwise
      (fun a b => (∀ i, ¬(covers a i ∧ covers b i)) ∧ a.start < b.start) :=
  ⟨by decide, merge_nonoverlap_sorted _ (by decide)⟩

/-- C2: the merge step is greedy interval selection — raw matches are
sorted by (start ascending, score descending, span length descending,
registration order ascending), then scanned once with a cursor that
accepts a match exactly when its start is at or past the cursor — and in
particular, of two matches at the same position with different scores,
only the higher-score one is accepted, in either input order. -/
theorem merge_greedy_selection :
    (∀ a b : Match, leM a b ↔ (a.start < b.start ∨ (a.start = b.start ∧
      (b.score100 < a.score100 ∨ (a.score100 = b.score100 ∧
        ((b.stop : ℤ) - (b.start : ℤ) < (a.stop : ℤ) - (a.start : ℤ) ∨
          ((a.stop : ℤ) - (a.start : ℤ) = (b.stop : ℤ) - (b.start : ℤ) ∧ a.reg ≤ b.reg))))))) ∧
    (∀ rm : List Match, merge rm = scan (-1) (List.insertionSort leM rm)) ∧
    (∀ m1 m2 : Match, m1.start = m2.start → m2.score100 < m1.score100 → m1.start < m1.stop →
      merge [m1, m2] = [m1] ∧ merge [m2, m1] = [m1]) :=
  ⟨leM_iff, fun _ => rfl, merge_pair_same_start⟩

theorem merge_greedy_selection_witness :
    merge [(⟨"DNI_ARG", 0, 20, 85, 4⟩ : Match), ⟨"BANK_ACCOUNT", 0, 20, 60, 3⟩] =
        [⟨"DNI_ARG", 0, 20, 85, 4⟩] ∧
    merge [(⟨"BANK_ACCOUNT", 0, 20, 60, 3⟩ : Match), ⟨"DNI_ARG", 0, 20, 85, 4⟩] =
        [⟨"DNI_ARG", 0, 20, 85, 4⟩] :=
  merge_greedy_selection.2.2 _ _ rfl (by decide) (by decide)

/-- C3: for every text and every accepted set over it that satisfies the
AcceptedSet invariant (chained non-overlapping valid spans inside the
text), the one-pass anonymizer output equals the per-index specification:
each accepted span is replaced by the placeholder of its entity type and
every character outside the accepted spans appears unchanged and in
order. -/
theorem anonymize_offset_integrity (text : List Char) (ms : List Match)
    (hchain : ms.Pairwise chainRel)
    (hb : ∀ m ∈ ms, m.start < m.stop ∧ m.stop ≤ text.length) :
    anonymize text ms = anonymizeSpec text ms := by
  unfold anonymize anonymizeSpec
  rw [List.range_eq_range']
  have h := anonGo_spec text ms 0 hchain (fun m hm => ⟨Nat.zero_le _, (hb m hm).1, (hb m hm).2⟩)
  rw [Nat.sub_zero] at h
  exact h

theorem anonymize_offset_integrity_witness :
    (List.Pairwise chainRel [(⟨"X", 1, 3, 80, 1⟩ : Match)] ∧
      (∀ m ∈ [(⟨"X", 1, 3, 80, 1⟩ : Match)], m.start < m.stop ∧ m.stop ≤ "abcde".data.length)) ∧
    anonymize "abcde".data [⟨"X", 1, 3, 80, 1⟩] = anonymizeSpec "abcde".data [⟨"X", 1, 3, 80, 1⟩] :=
  ⟨⟨by decide, by decide⟩, anonymize_offset_integrity _ _ (by decide) (by decide)⟩

/-- C4: the merge step is idempotent — merging its own output returns that
output unchanged, and re-running merge on the same raw input returns the
same accepted set. -/
theorem merge_idem (rm : List Match) :
    merge (merge rm) = merge rm ∧ merge rm = merge rm :=
  ⟨merge_idem_aux rm, rfl⟩

/-- C5: the merge step is order-independent — any permutation of the raw
match list merges to the same accepted set — provided the sort key is
injective on the list's matches (which holds for recognizer output: a
recognizer's registration index determines its entity label, and equal
key means equal start, end and score). -/
theorem merge_perm_invariant (l₁ l₂ : List Match) (hp : l₁.Perm l₂)
    (hanti : ∀ a ∈ l₁, ∀ b ∈ l₁, leM a b → leM b a → a = b) :
    merge l₁ = merge l₂ := by
  have hs₁ := sort_pairwise l₁
  have hs₂ := sort_pairwise l₂
  have hperm : (List.insertionSort leM l₁).Perm (List.insertionSort leM l₂) :=
    (List.perm_insertionSort leM l₁).trans (hp.trans (List.perm_insertionSort leM l₂).symm)
  have heq : List.insertionSort leM l₁ = List.insertionSort leM l₂ := by
    apply sorted_perm_eq hperm hs₁ hs₂
    intro a ha b hb
    exact hanti a ((List.mem_insertionSort leM).mp ha) b ((List.mem_insertionSort leM).mp hb)
  unfold merge
  rw [heq]

theorem merge_perm_invariant_witness :
    (List.Perm
        [(⟨"EMAIL_CUSTOM", 13, 25, 100, 1⟩ : Match), ⟨"PHONE_CUSTOM", 31, 43, 80, 2⟩,
          ⟨"BANK_ACCOUNT", 31, 43, 60, 3⟩]
        [⟨"BANK_ACCOUNT", 31, 43, 60, 3⟩, ⟨"EMAIL_CUSTOM", 13, 25, 100, 1⟩,
          ⟨"PHONE_CUSTOM", 31, 43, 80, 2⟩] ∧
      (∀ a ∈ [(⟨"EMAIL_CUSTOM", 13, 25, 100, 1⟩ : Match), ⟨"PHONE_CUSTOM", 31, 43, 80, 2⟩,
          ⟨"BANK_ACCOUNT", 31, 43, 60, 3⟩],
        ∀ b ∈ [(⟨"EMAIL_CUSTOM", 13, 25, 100, 1⟩ : Match), ⟨"PHONE_CUSTOM", 31, 43, 80, 2⟩,
          ⟨"BANK_ACCOUNT", 31, 43, 60, 3⟩], leM a b → leM b a → a = b)) ∧
    merge [(⟨"EMAIL_CUSTOM", 13, 25, 100, 1⟩ : Match), ⟨"PHONE_CUSTOM", 31, 43, 80, 2⟩,
        ⟨"BANK_ACCOUNT", 31, 43, 60, 3⟩] =
      merge [(⟨"BANK_ACCOUNT", 31, 43, 60, 3⟩ : Match), ⟨"EMAIL_CUSTOM", 13, 25, 100, 1⟩,
        ⟨"PHONE_CUSTOM", 31, 43, 80, 2⟩] :=
  ⟨⟨by decide, by decide⟩, merge_perm_invariant _ _ (by decide) (by decide)⟩

/-- C6 counterexample: on the Scenario A input the reported
`detected_items` uses the code's entity labels `EMAIL_CUSTOM` /
`PHONE_CUSTOM` (`main.py` lines 29/34), so the set does not contain the
spec's labels `EMAIL` and `PHONE`. -/
theorem scenarioA_labels_counterexample :
    "EMAIL" ∉ (secure_chat none (fun s => s) promptA "guest").safety_report.detected_items ∧
    "PHONE" ∉ (secure_chat none (fun s => s) promptA "guest").safety_report.detected_items :=
  ⟨by decide, by decide⟩

/-- C6 (amended): on the input `"Contactame a ana@mail.com o al
11-4555-2233"` the pipeline detects the email and phone categories under
the code's labels — `detected_items = {EMAIL_CUSTOM, PHONE_CUSTOM}` — and
the sanitized text has exactly those two spans replaced by their
placeholders, all other characters unchanged. -/
theorem scenarioA_detection (api_key : Option String) (llm : List Char → List Char)
    (user_id : String) :
    (secure_chat api_key llm promptA user_id).safety_report.detected_items =
        ["EMAIL_CUSTOM", "PHONE_CUSTOM"] ∧
    (secure_chat api_key llm promptA user_id).safety_report.sanitized_prompt =
        "Contactame a <EMAIL_CUSTOM> o al <PHONE_CUSTOM>".data :=
  ⟨rfl, rfl⟩

/-- C7: with no API key configured (`main.py` lines 99–100) the handler
still returns normally and the response is exactly the simulation marker
`[SIMULACIÓN] Prompt seguro: ` followed by the sanitized text verbatim —
a valid outcome, not an error. -/
theorem simulation_fallback (llm : List Char → List Char) (prompt : List Char)
    (user_id : String) :
    (secure_chat none llm prompt user_id).ai_response =
      simMarker ++ (secure_chat none llm prompt user_id).safety_report.sanitized_prompt :=
  rfl

/-- C8: when no recognizer produces any match, the pipeline reports an
empty detected set, returns the input text unchanged as the sanitized
prompt, and still produces a response (the simulation branch echoes the
unchanged prompt). -/
theorem no_pii_passthrough (prompt : List Char) (llm : List Char → List Char)
    (api_key : Option String) (user_id : String) (h : analyzeText prompt = []) :
    (secure_chat api_key llm prompt user_id).safety_report.detected_items = [] ∧
    (secure_chat api_key llm prompt user_id).safety_report.sanitized_prompt = prompt ∧
    (secure_chat none llm prompt user_id).ai_response = simMarker ++ prompt := by
  have hm : merge (analyzeText prompt) = [] := by rw [h]; rfl
  refine ⟨?_, ?_, ?_⟩
  · show ((merge (analyzeText prompt)).map Match.entity_type).dedup = []
    rw [hm]; rfl
  · show anonymize prompt (merge (analyzeText prompt)) = prompt
    rw [hm]; rfl
  · show simMarker ++ anonymize prompt (merge (analyzeText prompt)) = simMarker ++ prompt
    rw [hm]; rfl

theorem no_pii_passthrough_witness :
    analyzeText "Hola".data = [] ∧
    ((secure_chat (some "k") (fun s => s) "Hola".data "guest").safety_report.detected_items = [] ∧
      (secure_chat (some "k") (fun s => s) "Hola".data "guest").safety_report.sanitized_prompt =
        "Hola".data ∧
      (secure_chat none (fun s => s) "Hola".data "guest").ai_response = simMarker ++ "Hola".data) :=
  ⟨rfl, no_pii_passthrough _ _ _ _ rfl⟩

/-- C9 counterexample: the error response body (`main.py` line 121,
`detail=str(e)`) varies with the exception message and carries it
verbatim — so when that message contains detected span contents (here a
raw email address) the body reveals them — and the log line (line 120)
records the same unredacted message. -/
theorem error_leak_counterexample :
    handleError "ana@mail.com" ≠ handleError "otro" ∧
    (handleError "ana@mail.com").2 = "ana@mail.com" ∧
    logLine "ana@mail.com" = "Error: ana@mail.com" :=
  ⟨by decide, rfl, rfl⟩

/-- C9 (amended): every request-level failure surfaces with the fixed
status code 500, but the response detail equals the exception message
verbatim (so the body varies with, and can reveal, whatever that message
contains, including detected span contents), and the internal log records
the same unredacted message prefixed with `Error: `. -/
theorem error_propagation (msg : String) :
    (handleError msg).1 = 500 ∧ (handleError msg).2 = msg ∧ logLine msg = "Error: " ++ msg :=
  ⟨rfl, rfl, rfl⟩

/-- C10: the secure-chat handler never reads `user_id` — two requests with
the same prompt, key and provider but different user ids produce identical
responses (safety report and, in particular, the simulation-mode answer). -/
theorem user_id_noninterference (api_key : Option String) (llm : List Char → List Char)
    (prompt : List Char) (u1 u2 : String) :
    secure_chat api_key llm prompt u1 = secure_chat api_key llm prompt u2 :=
  rfl
